import Mathlib

/-
Verification of the voice-webapp core against its design specification.

The definitions below are a shallow embedding of the TypeScript classes
`AdvancedVAD` and `AudioBufferManager` (src/src/App.tsx) and
`ResourceCleanup` (src/unnamed/part_000, utils/resourceCleanup.ts).
JavaScript numbers are modelled as rationals; note that in this model
division by zero yields 0 rather than Infinity/NaN.
-/

namespace VoiceWebapp

/-- One processed audio frame as handed to `AdvancedVAD.process`: the RMS
volume computed by the monitor loop, and the raw time-domain samples. -/
structure Frame where
  volume : ℚ
  samples : List ℚ
deriving DecidableEq

/-- Events emitted by the VAD state machine. -/
inductive Event where
  | speechStart
  | speechEnd
deriving DecidableEq

/-- Mutable state of an `AdvancedVAD` instance (src/src/App.tsx lines 57-76). -/
structure VAD where
  isSpeaking : Bool
  speechFrames : ℕ
  silenceFrames : ℕ
  energyThreshold : ℚ
  zcrThreshold : ℚ
  speechConfidence : ℚ
  backgroundNoise : ℚ
  calibrationSamples : List ℚ
  isCalibrated : Bool
  energyHistory : List ℚ
  zcrHistory : List ℚ
deriving DecidableEq

/-- `historySize` constant (= 5). -/
def historySize : ℕ := 5

/-- `calibrationTarget` constant (= 30). -/
def calibrationTarget : ℕ := 30

/-- `speechStartThreshold` constant (= 2). -/
def speechStartThreshold : ℕ := 2

/-- `speechEndThreshold` constant (= 8). -/
def speechEndThreshold : ℕ := 8

/-- Field initializers of `AdvancedVAD` (src/src/App.tsx lines 62-72). -/
def initVAD : VAD :=
  { isSpeaking := false
    speechFrames := 0
    silenceFrames := 0
    energyThreshold := 15 / 1000
    zcrThreshold := 3 / 10
    speechConfidence := 0
    backgroundNoise := 0
    calibrationSamples := []
    isCalibrated := false
    energyHistory := []
    zcrHistory := [] }

/-- `list.reduce((a, b) => a + b, 0)` as used throughout the source. -/
def listSum (l : List ℚ) : ℚ := l.foldl (· + ·) 0

/-- `AdvancedVAD.calibrate` (src/src/App.tsx lines 90-103): push the volume
while fewer than 30 samples are collected (returning false); otherwise, on
the first call past that point, derive the noise floor and threshold and
return true; later calls just return true. -/
def calibrate (st : VAD) (volume : ℚ) : VAD × Bool :=
  if st.calibrationSamples.length < calibrationTarget then
    ({ st with calibrationSamples := st.calibrationSamples ++ [volume] }, false)
  else if st.isCalibrated = false then
    let sum := listSum st.calibrationSamples
    let bg := sum / (st.calibrationSamples.length : ℚ)
    ({ st with backgroundNoise := bg, energyThreshold := bg * 3, isCalibrated := true }, true)
  else
    (st, true)

/-- The zero-crossing count of the loop in `AdvancedVAD.calculateZCR`:
for i from 1, count the indices with `samples[i] * samples[i-1] < 0`. -/
def zcrCount : List ℚ → ℕ
  | [] => 0
  | [_] => 0
  | a :: b :: rest => (if a * b < 0 then 1 else 0) + zcrCount (b :: rest)

/-- `AdvancedVAD.calculateZCR` (src/src/App.tsx lines 105-112): 0.5 on an
empty frame, otherwise the crossing count divided by the frame length. -/
def calculateZCR (samples : List ℚ) : ℚ :=
  if samples.length = 0 then 1 / 2
  else (zcrCount samples : ℚ) / (samples.length : ℚ)

/-- Observable output of one `process` call: the speech boundary event (if
any) together with the `onVolumeChange` and `onConfidence` callback payloads. -/
structure ProcessOut where
  event : Option Event
  volumeCb : Option ℚ
  confidenceCb : Option ℚ
deriving DecidableEq

/-- Output of a `process` call made before calibration completes: nothing is
emitted at all. -/
def noOut : ProcessOut := ⟨none, none, none⟩

/-- Push onto one of the smoothing histories and evict the oldest entry once
the length exceeds `historySize` (the push / shift pair in
src/src/App.tsx lines 124-129). -/
def pushBounded (hist : List ℚ) (x : ℚ) : List ℚ :=
  let h := hist ++ [x]
  if historySize < h.length then h.tail else h

/-- `AdvancedVAD.process` (src/src/App.tsx lines 114-161). Uncalibrated
states feed the volume to `calibrate` and return without any event. Otherwise
the smoothed features are computed, the confidence telemetry is emitted, and
the hysteresis counters drive the Silence/Speech transitions. -/
def process (st : VAD) (f : Frame) : VAD × ProcessOut :=
  if st.isCalibrated = false then
    ((calibrate st f.volume).1, noOut)
  else
    let energy := f.volume
    let zcr := if 0 < f.samples.length then calculateZCR f.samples else 1 / 2
    let eH := pushBounded st.energyHistory energy
    let zH := pushBounded st.zcrHistory zcr
    let avgEnergy := listSum eH / (eH.length : ℚ)
    let avgZCR := listSum zH / (zH.length : ℚ)
    let energySpeech := st.energyThreshold < avgEnergy
    let zcrSpeech := st.zcrThreshold < avgZCR
    let energyConf := min (avgEnergy / (st.energyThreshold * 3)) 1
    let zcrConf := min (avgZCR / st.zcrThreshold) 1
    let conf := (energyConf + zcrConf) / 2
    let st1 := { st with energyHistory := eH, zcrHistory := zH, speechConfidence := conf }
    if energySpeech ∧ zcrSpeech then
      let sf := st1.speechFrames + 1
      let st2 := { st1 with speechFrames := sf, silenceFrames := 0 }
      if st2.isSpeaking = false ∧ speechStartThreshold < sf then
        ({ st2 with isSpeaking := true }, ⟨some Event.speechStart, some f.volume, some conf⟩)
      else
        (st2, ⟨none, some f.volume, some conf⟩)
    else
      let sif := st1.silenceFrames + 1
      let st2 := { st1 with silenceFrames := sif, speechFrames := 0 }
      if st2.isSpeaking = true ∧ speechEndThreshold < sif then
        ({ st2 with isSpeaking := false }, ⟨some Event.speechEnd, some f.volume, some conf⟩)
      else
        (st2, ⟨none, some f.volume, some conf⟩)

/-- `AdvancedVAD.reset` (src/src/App.tsx lines 163-170). -/
def reset (st : VAD) : VAD :=
  { st with isSpeaking := false, speechFrames := 0, silenceFrames := 0,
            speechConfidence := 0, energyHistory := [], zcrHistory := [] }

/-- Run `process` over a list of frames, collecting the per-frame outputs. -/
def runProcess (st : VAD) : List Frame → VAD × List ProcessOut
  | [] => (st, [])
  | f :: fs =>
    let p := process st f
    let r := runProcess p.1 fs
    (r.1, p.2 :: r.2)

/-- Run `calibrate` over a list of volumes, collecting the returned booleans. -/
def runCalibrate (st : VAD) : List ℚ → VAD × List Bool
  | [] => (st, [])
  | v :: vs =>
    let p := calibrate st v
    let r := runCalibrate p.1 vs
    (r.1, p.2 :: r.2)

/-- The hysteresis core of the detector: the Silence/Speech flag and the two
debounce counters, isolated from the signal statistics. -/
structure SM where
  isSpeaking : Bool
  speechFrames : ℕ
  silenceFrames : ℕ
deriving DecidableEq

/-- The hysteresis core of a full VAD state. -/
def VAD.sm (st : VAD) : SM := ⟨st.isSpeaking, st.speechFrames, st.silenceFrames⟩

/-- One transition of the hysteresis core, given the speech-like
classification of the frame (src/src/App.tsx lines 144-160). -/
def stepSM (s : SM) (b : Bool) : SM × Option Event :=
  if b then
    let sf := s.speechFrames + 1
    if s.isSpeaking = false ∧ speechStartThreshold < sf then
      (⟨true, sf, 0⟩, some Event.speechStart)
    else
      (⟨s.isSpeaking, sf, 0⟩, none)
  else
    let sif := s.silenceFrames + 1
    if s.isSpeaking = true ∧ speechEndThreshold < sif then
      (⟨false, 0, sif⟩, some Event.speechEnd)
    else
      (⟨s.isSpeaking, 0, sif⟩, none)

/-- Iterate `stepSM` over a list of classifications. -/
def runSM (s : SM) : List Bool → SM × List (Option Event)
  | [] => (s, [])
  | b :: bs =>
    let p := stepSM s b
    let r := runSM p.1 bs
    (r.1, p.2 :: r.2)

/-- The speech-like classification `process` makes for a frame in a
calibrated state: both smoothed averages (after pushing the new features)
must exceed their thresholds. -/
def classify (st : VAD) (f : Frame) : Bool :=
  let zcr := if 0 < f.samples.length then calculateZCR f.samples else 1 / 2
  let eH := pushBounded st.energyHistory f.volume
  let zH := pushBounded st.zcrHistory zcr
  decide (st.energyThreshold < listSum eH / (eH.length : ℚ)) &&
    decide (st.zcrThreshold < listSum zH / (zH.length : ℚ))

/-- The classifications `process` makes along a list of frames. -/
def classList (st : VAD) : List Frame → List Bool
  | [] => []
  | f :: fs => classify st f :: classList (process st f).1 fs

theorem process_calibrated (st : VAD) (f : Frame) (hcal : st.isCalibrated = true) :
    (process st f).2.event = (stepSM st.sm (classify st f)).2 ∧
    ((process st f).1).sm = (stepSM st.sm (classify st f)).1 ∧
    (process st f).1.isCalibrated = true ∧
    (process st f).1.energyThreshold = st.energyThreshold ∧
    (process st f).1.backgroundNoise = st.backgroundNoise ∧
    (process st f).1.zcrThreshold = st.zcrThreshold ∧
    (process st f).1.calibrationSamples = st.calibrationSamples := by
  have hne : ¬ (st.isCalibrated = false) := by simp [hcal]
  by_cases h1 : st.energyThreshold <
      listSum (pushBounded st.energyHistory f.volume) /
        ((pushBounded st.energyHistory f.volume).length : ℚ) <;>
    by_cases h2 : st.zcrThreshold <
        listSum (pushBounded st.zcrHistory
            (if 0 < f.samples.length then calculateZCR f.samples else 1 / 2)) /
          ((pushBounded st.zcrHistory
              (if 0 < f.samples.length then calculateZCR f.samples else 1 / 2)).length : ℚ) <;>
    simp only [process, classify, stepSM, VAD.sm, if_neg hne, h1, h2, decide_True,
      decide_False, Bool.and_true, Bool.and_false, and_true, and_false, true_and, false_and,
      if_true, if_false, ite_true, ite_false, not_true, not_false_iff] <;>
    split_ifs <;>
    simp_all

theorem map_none_of_range {m : ℕ} {f : ℕ → Option Event} (h : ∀ i, f i = none) :
    (List.range m).map f = List.replicate m none := by
  have : f = fun _ => none := funext h
  subst this
  simp [List.map_const']

theorem range_map_shift {α : Type} (g : ℕ → α) (m : ℕ) :
    (List.range (m + 1)).map g = g 0 :: (List.range m).map fun i => g (i + 1) := by
  rw [List.range_succ_eq_map]
  simp [List.map_map]

theorem runSM_speaking_all_true (n : ℕ) (sf z : ℕ) :
    (runSM ⟨true, sf, z⟩ (List.replicate n true)).2 = List.replicate n none := by
  induction n generalizing sf z with
  | zero => simp [runSM]
  | succ m ih => simp [runSM, stepSM, List.replicate_succ, ih]

theorem runSM_silent_all_false (n : ℕ) (sf z : ℕ) :
    (runSM ⟨false, sf, z⟩ (List.replicate n false)).2 = List.replicate n none := by
  induction n generalizing sf z with
  | zero => simp [runSM]
  | succ m ih => simp [runSM, stepSM, List.replicate_succ, ih]

theorem runSM_start_events (n : ℕ) (c : ℕ) (hc : c ≤ speechStartThreshold) (z : ℕ) :
    (runSM ⟨false, c, z⟩ (List.replicate n true)).2
      = (List.range n).map
          (fun i => if i = speechStartThreshold - c then some Event.speechStart else none) := by
  induction n generalizing c z with
  | zero => simp [runSM]
  | succ m ih =>
    simp only [speechStartThreshold] at hc
    rcases Nat.lt_or_eq_of_le hc with hlt | heq
    · have hno : ¬ (speechStartThreshold < c + 1) := by
        simp only [speechStartThreshold]
        omega
      have hstep : stepSM ⟨false, c, z⟩ true = (⟨false, c + 1, 0⟩, none) := by
        simp [stepSM, hno]
      rw [List.replicate_succ, range_map_shift]
      simp only [runSM, hstep]
      rw [ih (c + 1) (by simp only [speechStartThreshold]; omega) 0]
      congr 1
      · rw [if_neg (by simp only [speechStartThreshold]; omega)]
      · apply List.map_congr_left
        intro i _
        apply if_congr _ rfl rfl
        simp only [speechStartThreshold]
        omega
    · have hyes : speechStartThreshold < c + 1 := by
        simp only [speechStartThreshold]
        omega
      have hstep : stepSM ⟨false, c, z⟩ true = (⟨true, c + 1, 0⟩, some Event.speechStart) := by
        simp [stepSM, hyes]
      rw [List.replicate_succ, range_map_shift]
      simp only [runSM, hstep]
      rw [runSM_speaking_all_true]
      congr 1
      · rw [if_pos (by simp only [speechStartThreshold]; omega)]
      · rw [map_none_of_range]
        intro i
        rw [if_neg (by simp only [speechStartThreshold]; omega)]

theorem runSM_end_events (n : ℕ) (c : ℕ) (hc : c ≤ speechEndThreshold) (sf : ℕ) :
    (runSM ⟨true, sf, c⟩ (List.replicate n false)).2
      = (List.range n).map
          (fun i => if i = speechEndThreshold - c then some Event.speechEnd else none) := by
  induction n generalizing c sf with
  | zero => simp [runSM]
  | succ m ih =>
    simp only [speechEndThreshold] at hc
    rcases Nat.lt_or_eq_of_le hc with hlt | heq
    · have hno : ¬ (speechEndThreshold < c + 1) := by
        simp only [speechEndThreshold]
        omega
      have hstep : stepSM ⟨true, sf, c⟩ false = (⟨true, 0, c + 1⟩, none) := by
        simp [stepSM, hno]
      rw [List.replicate_succ, range_map_shift]
      simp only [runSM, hstep]
      rw [ih (c + 1) (by simp only [speechEndThreshold]; omega) 0]
      congr 1
      · rw [if_neg (by simp only [speechEndThreshold]; omega)]
      · apply List.map_congr_left
        intro i _
        apply if_congr _ rfl rfl
        simp only [speechEndThreshold]
        omega
    · have hyes : speechEndThreshold < c + 1 := by
        simp only [speechEndThreshold]
        omega
      have hstep : stepSM ⟨true, sf, c⟩ false = (⟨false, 0, c + 1⟩, some Event.speechEnd) := by
        simp [stepSM, hyes]
      rw [List.replicate_succ, range_map_shift]
      simp only [runSM, hstep]
      rw [runSM_silent_all_false]
      congr 1
      · rw [if_pos (by simp only [speechEndThreshold]; omega)]
      · rw [map_none_of_range]
        intro i
        rw [if_neg (by simp only [speechEndThreshold]; omega)]

theorem runProcess_events (fs : List Frame) (st : VAD) (hcal : st.isCalibrated = true) :
    (runProcess st fs).2.map ProcessOut.event = (runSM st.sm (classList st fs)).2 := by
  induction fs generalizing st with
  | nil => simp [runProcess, classList, runSM]
  | cons f fs ih =>
    obtain ⟨he, hsm, hc, _, _, _, _⟩ := process_calibrated st f hcal
    simp only [runProcess, classList, runSM, List.map_cons]
    rw [← hsm, ih _ hc, he]

theorem runProcess_calibrated_inv (fs : List Frame) (st : VAD)
    (hcal : st.isCalibrated = true) :
    (runProcess st fs).1.isCalibrated = true ∧
    (runProcess st fs).1.energyThreshold = st.energyThreshold ∧
    (runProcess st fs).1.backgroundNoise = st.backgroundNoise ∧
    (runProcess st fs).1.calibrationSamples = st.calibrationSamples := by
  induction fs generalizing st with
  | nil => simp [runProcess, hcal]
  | cons f fs ih =>
    obtain ⟨_, _, hc, ht, hb, _, hs⟩ := process_calibrated st f hcal
    obtain ⟨ih1, ih2, ih3, ih4⟩ := ih _ hc
    simp only [runProcess]
    exact ⟨ih1, ih2.trans ht, ih3.trans hb, ih4.trans hs⟩

theorem process_uncalibrated (st : VAD) (f : Frame) (h : st.isCalibrated = false) :
    process st f = ((calibrate st f.volume).1, noOut) := by
  simp [process, h]

theorem calibrate_push (st : VAD) (v : ℚ)
    (h : st.calibrationSamples.length < calibrationTarget) :
    calibrate st v = ({ st with calibrationSamples := st.calibrationSamples ++ [v] }, false) := by
  simp [calibrate, h]

theorem calibrate_complete (st : VAD) (v : ℚ)
    (hlen : ¬ st.calibrationSamples.length < calibrationTarget)
    (h : st.isCalibrated = false) :
    calibrate st v
      = ({ st with
            backgroundNoise := listSum st.calibrationSamples / (st.calibrationSamples.length : ℚ),
            energyThreshold :=
              listSum st.calibrationSamples / (st.calibrationSamples.length : ℚ) * 3,
            isCalibrated := true }, true) := by
  simp [calibrate, hlen, h]

theorem runCalibrate_fill (vs : List ℚ) (st : VAD)
    (h : st.calibrationSamples.length + vs.length ≤ calibrationTarget) :
    runCalibrate st vs
      = ({ st with calibrationSamples := st.calibrationSamples ++ vs },
         List.replicate vs.length false) := by
  induction vs generalizing st with
  | nil => simp [runCalibrate]
  | cons v vs ih =>
    simp only [List.length_cons] at h
    have hpush := calibrate_push st v (by omega)
    simp only [runCalibrate, hpush]
    rw [ih]
    · simp [List.replicate_succ]
    · simp
      omega

theorem runProcess_fill (fs : List Frame) (st : VAD) (hcal : st.isCalibrated = false)
    (h : st.calibrationSamples.length + fs.length ≤ calibrationTarget) :
    runProcess st fs
      = ({ st with calibrationSamples := st.calibrationSamples ++ fs.map Frame.volume },
         List.replicate fs.length noOut) := by
  induction fs generalizing st with
  | nil => simp [runProcess]
  | cons f fs ih =>
    simp only [List.length_cons] at h
    have hpush := calibrate_push st f.volume (by omega)
    simp only [runProcess, process_uncalibrated st f hcal, hpush]
    rw [ih]
    · simp [List.replicate_succ]
    · exact hcal
    · simp
      omega

theorem runProcess_append (as bs : List Frame) (st : VAD) :
    (runProcess st (as ++ bs)).1 = (runProcess (runProcess st as).1 bs).1 := by
  induction as generalizing st with
  | nil => simp [runProcess]
  | cons a as ih => simp [runProcess, ih]

theorem calibration_run_facts (fs : List Frame) (h : 31 ≤ fs.length) :
    (runProcess initVAD fs).1.isCalibrated = true ∧
    (runProcess initVAD fs).1.backgroundNoise
      = listSum ((fs.map Frame.volume).take 30) / 30 ∧
    (runProcess initVAD fs).1.energyThreshold
      = (runProcess initVAD fs).1.backgroundNoise * 3 ∧
    ∀ gs : List Frame,
      (runProcess (runProcess initVAD fs).1 gs).1.energyThreshold
        = (runProcess initVAD fs).1.energyThreshold := by
  obtain ⟨f31, hf31⟩ : ∃ f, fs[30]? = some f := by
    rw [List.getElem?_eq_getElem (by omega)]
    exact ⟨_, rfl⟩
  have htake : fs.take 31 = fs.take 30 ++ [f31] := by
    rw [List.take_succ, hf31]
    rfl
  have hlen30 : (fs.take 30).length = 30 := by
    rw [List.length_take]
    omega
  have h30 : (runProcess initVAD (fs.take 30)).1
      = { initVAD with calibrationSamples := (fs.take 30).map Frame.volume } := by
    rw [runProcess_fill (fs.take 30) initVAD rfl
      (by simp only [initVAD, List.length_nil, calibrationTarget]; omega)]
    simp [initVAD]
  have hlensamp : ({ initVAD with
      calibrationSamples := (fs.take 30).map Frame.volume } : VAD).calibrationSamples.length
      = 30 := by
    show ((fs.take 30).map Frame.volume).length = 30
    rw [List.length_map, hlen30]
  have hst31 : (runProcess initVAD (fs.take 31)).1
      = { initVAD with
            calibrationSamples := (fs.take 30).map Frame.volume,
            backgroundNoise := listSum ((fs.take 30).map Frame.volume) / 30,
            energyThreshold := listSum ((fs.take 30).map Frame.volume) / 30 * 3,
            isCalibrated := true } := by
    rw [htake, runProcess_append, h30]
    simp only [runProcess]
    rw [process_uncalibrated _ _ (by simp [initVAD])]
    rw [calibrate_complete _ _ (by rw [hlensamp]; simp [calibrationTarget]) (by simp [initVAD])]
    simp only [hlensamp]
    norm_num
  have hdrop : (runProcess initVAD fs).1
      = (runProcess (runProcess initVAD (fs.take 31)).1 (fs.drop 31)).1 := by
    conv_lhs => rw [← List.take_append_drop 31 fs]
    rw [runProcess_append]
  have hinv := runProcess_calibrated_inv (fs.drop 31) (runProcess initVAD (fs.take 31)).1
    (by rw [hst31])
  have hmt : (fs.take 30).map Frame.volume = (fs.map Frame.volume).take 30 := by
    rw [List.map_take]
  refine ⟨?_, ?_, ?_, ?_⟩
  · rw [hdrop]
    exact hinv.1
  · rw [hdrop, hinv.2.2.1, hst31, ← hmt]
  · rw [hdrop, hinv.2.1, hinv.2.2.1, hst31]
  · intro gs
    have hcalfs : (runProcess initVAD fs).1.isCalibrated = true := by
      rw [hdrop]
      exact hinv.1
    exact (runProcess_calibrated_inv gs _ hcalfs).2.1

/-- C1: after calibration completes (which requires at least 31 `process`
calls, the completing call being the one after the 30th observation),
`energyThreshold` equals `backgroundNoise * 3` exactly, where
`backgroundNoise` is the arithmetic mean of the first 30 submitted energy
values, and no later observation modifies the threshold. -/
theorem calibrated_threshold_fixed (fs : List Frame) (h : 31 ≤ fs.length) :
    (runProcess initVAD fs).1.isCalibrated = true ∧
    (runProcess initVAD fs).1.backgroundNoise
      = listSum ((fs.map Frame.volume).take 30) / 30 ∧
    (runProcess initVAD fs).1.energyThreshold
      = (runProcess initVAD fs).1.backgroundNoise * 3 ∧
    ∀ gs : List Frame,
      (runProcess (runProcess initVAD fs).1 gs).1.energyThreshold
        = (runProcess initVAD fs).1.energyThreshold :=
  calibration_run_facts fs h

theorem calibrated_threshold_fixed_witness :
    (31 ≤ (List.replicate 31 (Frame.mk 1 [])).length) ∧
    (runProcess initVAD (List.replicate 31 (Frame.mk 1 []))).1.isCalibrated = true ∧
    (runProcess initVAD (List.replicate 31 (Frame.mk 1 []))).1.energyThreshold = 3 := by
  have h := calibrated_threshold_fixed (List.replicate 31 (Frame.mk 1 [])) (by simp)
  refine ⟨by simp, h.1, ?_⟩
  rw [h.2.2.1, h.2.1]
  norm_num [listSum, List.replicate]

/-- C2: a calibrated detector in the Silence state (with its consecutive
speech-frame counter at zero, i.e. at the start of a qualifying run), fed a
run of frames each classified speech-like, emits `onSpeechStart` exactly
once, on the 3rd qualifying frame (index 2) and never on the 1st or 2nd. -/
theorem speech_start_fires_on_third (st : VAD) (fs : List Frame)
    (hcal : st.isCalibrated = true) (hsp : st.isSpeaking = false)
    (hsf : st.speechFrames = 0)
    (hall : classList st fs = List.replicate fs.length true) :
    (runProcess st fs).2.map ProcessOut.event
      = (List.range fs.length).map
          (fun i => if i = 2 then some Event.speechStart else none) := by
  rw [runProcess_events fs st hcal, hall]
  have hsm : st.sm = ⟨false, 0, st.silenceFrames⟩ := by
    rw [VAD.sm, hsp, hsf]
  rw [hsm, runSM_start_events fs.length 0 (by simp) st.silenceFrames]
  norm_num [speechStartThreshold]

/-- C3: a calibrated detector in the Speech state (with its consecutive
silence-frame counter at zero, i.e. at the start of a non-qualifying run),
fed a run of non-qualifying frames, emits `onSpeechEnd` exactly once, on the
9th such frame (index 8); shorter runs emit nothing. -/
theorem speech_end_fires_on_ninth (st : VAD) (fs : List Frame)
    (hcal : st.isCalibrated = true) (hsp : st.isSpeaking = true)
    (hsf : st.silenceFrames = 0)
    (hall : classList st fs = List.replicate fs.length false) :
    (runProcess st fs).2.map ProcessOut.event
      = (List.range fs.length).map
          (fun i => if i = 8 then some Event.speechEnd else none) := by
  rw [runProcess_events fs st hcal, hall]
  have hsm : st.sm = ⟨true, st.speechFrames, 0⟩ := by
    rw [VAD.sm, hsp, hsf]
  rw [hsm, runSM_end_events fs.length 0 (by simp) st.speechFrames]
  norm_num [speechEndThreshold]

/-- A concrete calibrated detector state resting in Silence, used to
instantiate the hysteresis theorems. -/
def calVAD : VAD :=
  { isSpeaking := false
    speechFrames := 0
    silenceFrames := 0
    energyThreshold := 1 / 100
    zcrThreshold := 3 / 10
    speechConfidence := 0
    backgroundNoise := 1 / 300
    calibrationSamples := List.replicate 30 (1 / 300)
    isCalibrated := true
    energyHistory := []
    zcrHistory := [] }

/-- The same concrete detector state while speech is active. -/
def calVADSpeaking : VAD :=
  { calVAD with isSpeaking := true, speechFrames := 3 }

/-- A frame with high energy and speech-like zero-crossing rate. -/
def speechFrame : Frame := ⟨1, [1, -1, 1, -1]⟩

/-- A frame with zero energy and no samples. -/
def silentFrame : Frame := ⟨0, []⟩

theorem speech_start_fires_on_third_witness :
    (runProcess calVAD (List.replicate 4 speechFrame)).2.map ProcessOut.event
      = [none, none, some Event.speechStart, none] := by
  have hall : classList calVAD (List.replicate 4 speechFrame)
      = List.replicate (List.replicate 4 speechFrame).length true := by
    norm_num [classList, classify, process, calVAD, speechFrame, pushBounded, listSum,
      calculateZCR, zcrCount, historySize, speechStartThreshold, List.replicate]
  rw [speech_start_fires_on_third calVAD (List.replicate 4 speechFrame) rfl rfl rfl hall]
  decide

theorem speech_end_fires_on_ninth_witness :
    (runProcess calVADSpeaking (List.replicate 10 silentFrame)).2.map ProcessOut.event
      = [none, none, none, none, none, none, none, none, some Event.speechEnd, none] := by
  have hall : classList calVADSpeaking (List.replicate 10 silentFrame)
      = List.replicate (List.replicate 10 silentFrame).length false := by
    norm_num [classList, classify, process, calVADSpeaking, calVAD, silentFrame, pushBounded,
      listSum, calculateZCR, zcrCount, historySize, speechEndThreshold, List.replicate]
  rw [speech_end_fires_on_ninth calVADSpeaking (List.replicate 10 silentFrame) rfl rfl rfl hall]
  decide

theorem zcrCount_eq_countP (s : List ℚ) :
    zcrCount s = (s.zip s.tail).countP (fun p => decide (p.1 * p.2 < 0)) := by
  induction s with
  | nil => simp [zcrCount]
  | cons a t ih =>
    cases t with
    | nil => simp [zcrCount]
    | cons b u =>
      simp only [zcrCount, List.tail_cons, List.zip_cons_cons, List.countP_cons, ih]
      by_cases hab : a * b < 0
      · simp [hab]
        omega
      · simp [hab]

/-- C4 counterexample: the call that supplies the 30th energy observation
does NOT complete calibration — it still returns false and leaves
`isCalibrated` false; only the following (31st) call returns true. -/
theorem observe_30th_call_incomplete :
    (runCalibrate initVAD (List.replicate 30 1)).2.getLast? = some false ∧
    (runCalibrate initVAD (List.replicate 30 1)).1.isCalibrated = false ∧
    (calibrate (runCalibrate initVAD (List.replicate 30 1)).1 1).2 = true := by
  have h := runCalibrate_fill (List.replicate 30 (1 : ℚ)) initVAD
    (by simp [initVAD, calibrationTarget])
  rw [h]
  refine ⟨by decide, rfl, ?_⟩
  rw [calibrate_complete _ 1 (by simp [calibrationTarget]) rfl]

/-- C4 (amended): `observe` returns false on each of the first 30 calls,
which only collect samples and leave `isCalibrated` false; the 31st call is
the one that computes `backgroundNoise` (the mean of the 30 stored samples)
and `energyThreshold`, sets `isCalibrated`, and returns true. Until
calibration completes, `process` performs no classification, changes no
state-machine state, and emits no event. -/
theorem observe_completion_amended (vs : List ℚ) (v : ℚ) (hlen : vs.length = 30) :
    (runCalibrate initVAD vs).2 = List.replicate 30 false ∧
    (runCalibrate initVAD vs).1.isCalibrated = false ∧
    (calibrate (runCalibrate initVAD vs).1 v).2 = true ∧
    (calibrate (runCalibrate initVAD vs).1 v).1.isCalibrated = true ∧
    (calibrate (runCalibrate initVAD vs).1 v).1.backgroundNoise = listSum vs / 30 ∧
    (calibrate (runCalibrate initVAD vs).1 v).1.energyThreshold = listSum vs / 30 * 3 ∧
    ∀ (st : VAD) (f : Frame), st.isCalibrated = false →
      (process st f).2 = noOut ∧ (process st f).1.sm = st.sm ∧
      (process st f).1.energyHistory = st.energyHistory ∧
      (process st f).1.zcrHistory = st.zcrHistory := by
  have h := runCalibrate_fill vs initVAD (by simp [initVAD, calibrationTarget, hlen])
  have h1 : (runCalibrate initVAD vs).1 = { initVAD with calibrationSamples := vs } := by
    rw [h]
    simp [initVAD]
  have h2 : (runCalibrate initVAD vs).2 = List.replicate 30 false := by
    rw [h, hlen]
  have hcomp := calibrate_complete ({ initVAD with calibrationSamples := vs } : VAD) v
    (by simp [calibrationTarget, hlen]) rfl
  refine ⟨h2, by rw [h1]; simp [initVAD], by simp [h1, hcomp], by simp [h1, hcomp],
    by simp [h1, hcomp, hlen], by simp [h1, hcomp, hlen], ?_⟩
  intro st f hst
  rw [process_uncalibrated st f hst]
  refine ⟨rfl, ?_, ?_, ?_⟩ <;>
    · show _ = _
      rw [calibrate]
      split_ifs <;> rfl

theorem observe_completion_amended_witness :
    (List.replicate 30 (1 : ℚ)).length = 30 ∧
    (calibrate (runCalibrate initVAD (List.replicate 30 (1 : ℚ))).1 2).1.energyThreshold
      = 3 := by
  have h := observe_completion_amended (List.replicate 30 (1 : ℚ)) 2 (by simp)
  refine ⟨by simp, ?_⟩
  rw [h.2.2.2.2.2.1]
  norm_num [listSum, List.replicate]

/-- C5 counterexample: on [1, -1, 1, -1] `calculateZCR` returns 3/4 — three
crossing pairs divided by the frame length 4 — and not 1.0 as claimed. -/
theorem calculateZCR_alternating_counterexample :
    calculateZCR [1, -1, 1, -1] = 3 / 4 ∧ calculateZCR [1, -1, 1, -1] ≠ 1 := by
  norm_num [calculateZCR, zcrCount]

/-- C5 (amended): `calculateZCR` returns exactly 1/2 on the empty sample
array and exactly 3/4 on [1, -1, 1, -1]; in general, on a non-empty array it
returns the number of consecutive sample pairs whose product is strictly
negative, divided by the frame length. -/
theorem calculateZCR_spec (s : List ℚ) (hs : s ≠ []) :
    calculateZCR [] = 1 / 2 ∧
    calculateZCR [1, -1, 1, -1] = 3 / 4 ∧
    calculateZCR s
      = ((s.zip s.tail).countP (fun p => decide (p.1 * p.2 < 0)) : ℚ) / (s.length : ℚ) := by
  refine ⟨by norm_num [calculateZCR], by norm_num [calculateZCR, zcrCount], ?_⟩
  rw [calculateZCR, if_neg (by simpa using hs), zcrCount_eq_countP]

theorem calculateZCR_spec_witness :
    ([1, -1, 1, -1] : List ℚ) ≠ [] ∧
    calculateZCR [1, -1, 1, -1]
      = (((([1, -1, 1, -1] : List ℚ).zip (([1, -1, 1, -1] : List ℚ).tail)).countP
          (fun p => decide (p.1 * p.2 < 0)) : ℕ) : ℚ) / 4 := by
  have h := calculateZCR_spec [1, -1, 1, -1] (by simp)
  refine ⟨by simp, ?_⟩
  rw [h.2.2]
  norm_num

/-- C10: a session whose first 30 energy observations are all exactly 0
completes calibration with `backgroundNoise = 0` and `energyThreshold = 0`;
on every subsequent `process` call the divisor `energyThreshold * 3` of the
energy-confidence computation is 0 (the code has no guard against the zero
divisor), and the energy classification `avgEnergy > energyThreshold` holds
for any positive smoothed energy. -/
theorem zero_calibration_zero_threshold :
    (runProcess initVAD (List.replicate 31 silentFrame)).1.isCalibrated = true ∧
    (runProcess initVAD (List.replicate 31 silentFrame)).1.backgroundNoise = 0 ∧
    (runProcess initVAD (List.replicate 31 silentFrame)).1.energyThreshold = 0 ∧
    ∀ gs : List Frame,
      (runProcess (runProcess initVAD
          (List.replicate 31 silentFrame)).1 gs).1.energyThreshold * 3 = 0 ∧
      ∀ e : ℚ, 0 < e →
        (runProcess (runProcess initVAD
            (List.replicate 31 silentFrame)).1 gs).1.energyThreshold < e := by
  have h := calibration_run_facts (List.replicate 31 silentFrame) (by simp)
  have hbg : (runProcess initVAD (List.replicate 31 silentFrame)).1.backgroundNoise = 0 := by
    rw [h.2.1]
    norm_num [silentFrame, listSum, List.map_replicate, List.take_replicate, List.replicate]
  have hth : (runProcess initVAD (List.replicate 31 silentFrame)).1.energyThreshold = 0 := by
    rw [h.2.2.1, hbg, zero_mul]
  refine ⟨h.1, hbg, hth, ?_⟩
  intro gs
  have hinv := h.2.2.2 gs
  rw [hinv, hth]
  exact ⟨by ring, fun e he => he⟩

theorem zero_calibration_zero_threshold_witness :
    (runProcess initVAD (List.replicate 31 silentFrame)).1.energyThreshold * 3 = 0 ∧
    (0 : ℚ) < 1 ∧
    (runProcess initVAD (List.replicate 31 silentFrame)).1.energyThreshold < 1 := by
  have h2 := zero_calibration_zero_threshold.2.2.2 []
  simp only [runProcess] at h2
  exact ⟨h2.1, by norm_num, h2.2 1 (by norm_num)⟩

/-- Identifier of an audio clip handed to the playback queue. -/
abbrev Item := ℕ

/-- State of an `AudioBufferManager` (src/src/App.tsx lines 174-178: `queue`,
`isPlaying`, `currentAudio`), together with the host-side bookkeeping needed
to observe playback: `pending` holds started items whose completion callback
has not fired yet (each audio element resolves at most once), `live` holds
started items that are audibly playing (started, not yet completed, not
paused), and `enqueued` / `started` record the enqueue and playback-start
traces. -/
structure QState where
  queue : List Item
  isPlaying : Bool
  current : Option Item
  pending : List Item
  live : List Item
  enqueued : List Item
  started : List Item
deriving DecidableEq

/-- A freshly constructed `AudioBufferManager`. -/
def initQ : QState := ⟨[], false, none, [], [], [], []⟩

/-- `AudioBufferManager.playNext` (src/src/App.tsx lines 187-221): with an
empty queue it goes idle; otherwise it shifts the head, marks it playing and
begins its playback (the host starts a new audio element for it). -/
def playNext (s : QState) : QState :=
  match s.queue with
  | [] => { s with isPlaying := false }
  | h :: t =>
    { s with queue := t, isPlaying := true, current := some h,
             pending := s.pending ++ [h], live := s.live ++ [h],
             started := s.started ++ [h] }

/-- `AudioBufferManager.add` (src/src/App.tsx lines 180-185). -/
def add (s : QState) (x : Item) : QState :=
  let s1 := { s with queue := s.queue ++ [x], enqueued := s.enqueued ++ [x] }
  if s1.isPlaying = false then playNext s1 else s1

/-- `AudioBufferManager.stop` (src/src/App.tsx lines 223-230): pause the
current audio element (it stops sounding, though its callbacks remain
registered), drop the reference, discard the queue, clear the flag. -/
def stop (s : QState) : QState :=
  let s1 :=
    match s.current with
    | some c => { s with live := s.live.erase c, current := none }
    | none => s
  { s1 with queue := [], isPlaying := false }

/-- Delivery of a completion signal (ended or error) for a started audio
element: the host removes it from the audible set and runs the registered
onended/onerror closure, which calls `playNext`. An element completes at
most once (the `pending` guard); completions of unknown items are ignored. -/
def complete (s : QState) (c : Item) : QState :=
  if c ∈ s.pending then
    playNext { s with pending := s.pending.erase c, live := s.live.erase c }
  else s

/-- The operations C7 quantifies over: enqueue calls, and completion
callbacks for the currently playing item. -/
inductive QOp where
  | add (x : Item)
  | completeCurrent
deriving DecidableEq

/-- One step of the queue under the C7 operations. -/
def stepQ (s : QState) : QOp → QState
  | QOp.add x => add s x
  | QOp.completeCurrent =>
    match s.current with
    | some c => complete s c
    | none => s

/-- Run the queue from a state through a sequence of operations. -/
def runQ (s : QState) : List QOp → QState
  | [] => s
  | op :: ops => runQ (stepQ s op) ops

/-- Inductive invariant of the playback queue under enqueues and completions
of the currently playing item. -/
def QInv (s : QState) : Prop :=
  s.enqueued = s.started ++ s.queue ∧
  s.pending = s.live ∧
  (s.isPlaying = true → ∃ c, s.current = some c ∧ s.live = [c]) ∧
  (s.isPlaying = false → s.live = [] ∧ s.queue = [])

theorem stepQ_inv (s : QState) (op : QOp) (h : QInv s) : QInv (stepQ s op) := by
  obtain ⟨h1, h2, h3, h4⟩ := h
  cases op with
  | add x =>
    cases hb : s.isPlaying
    · obtain ⟨hl, hq⟩ := h4 hb
      simp only [stepQ, add, hb, playNext, hq, if_pos]
      refine ⟨?_, ?_, ?_, ?_⟩
      · simp [h1, hq]
      · simp [h2, hl]
      · intro _
        exact ⟨x, rfl, by simp [hl]⟩
      · intro hf
        simp at hf
    · simp only [stepQ, add, hb]
      rw [if_neg (by simp)]
      refine ⟨by simp [h1], h2, ?_, ?_⟩
      · intro _
        exact h3 hb
      · intro hf
        simp at hf
  | completeCurrent =>
    cases hb : s.isPlaying
    · obtain ⟨hl, hq⟩ := h4 hb
      simp only [stepQ]
      cases hcur : s.current with
      | none => exact ⟨h1, h2, h3, h4⟩
      | some c =>
        have hnp : c ∉ s.pending := by
          rw [h2, hl]
          simp
        simp only [complete, if_neg hnp]
        exact ⟨h1, h2, h3, h4⟩
    · obtain ⟨c, hcur, hl⟩ := h3 hb
      simp only [stepQ, hcur]
      have hp : c ∈ s.pending := by
        rw [h2, hl]
        simp
      simp only [complete, if_pos hp]
      have herase : s.pending.erase c = [] := by
        rw [h2, hl]
        simp
      have herase2 : s.live.erase c = [] := by
        rw [hl]
        simp
      cases hq : s.queue with
      | nil =>
        simp only [playNext, hq, herase, herase2]
        refine ⟨by simp [h1, hq], rfl, ?_, ?_⟩
        · intro hf
          simp at hf
        · intro _
          exact ⟨rfl, rfl⟩
      | cons hd tl =>
        simp only [playNext, hq, herase, herase2]
        refine ⟨?_, rfl, ?_, ?_⟩
        · simp [h1, hq]
        · intro _
          exact ⟨hd, rfl, by simp⟩
        · intro hf
          simp at hf

theorem runQ_inv (ops : List QOp) (s : QState) (h : QInv s) : QInv (runQ s ops) := by
  induction ops generalizing s with
  | nil => exact h
  | cons op ops ih => exact ih _ (stepQ_inv s op h)

/-- C7: in every state of the playback queue reachable by enqueue calls and
completion callbacks for the currently playing item, at most one item is
audibly playing, and items begin playback in exactly enqueue order: the
playback-start trace is a prefix of the enqueue trace. -/
theorem playback_fifo_single (ops : List QOp) :
    (runQ initQ ops).live.length ≤ 1 ∧
    ∃ t, (runQ initQ ops).started ++ t = (runQ initQ ops).enqueued := by
  obtain ⟨h1, h2, h3, h4⟩ := runQ_inv ops initQ
    (by refine ⟨rfl, rfl, ?_, fun _ => ⟨rfl, rfl⟩⟩; intro hf; simp [initQ] at hf)
  constructor
  · cases hb : (runQ initQ ops).isPlaying
    · rw [(h4 hb).1]
      simp
    · obtain ⟨c, _, hl⟩ := h3 hb
      rw [hl]
      simp
  · exact ⟨(runQ initQ ops).queue, h1.symm⟩

/-- The full external interface of the playback queue: enqueue, stop, and a
completion signal for any started audio element, including a stale one whose
item was forcibly stopped. -/
inductive QOpF where
  | add (x : Item)
  | stop
  | complete (c : Item)
deriving DecidableEq

/-- One step of the queue under the full interface. -/
def stepQF (s : QState) : QOpF → QState
  | QOpF.add x => add s x
  | QOpF.stop => stop s
  | QOpF.complete c => complete s c

/-- Run the queue through a sequence of full-interface operations. -/
def runQF (s : QState) : List QOpF → QState
  | [] => s
  | op :: ops => runQF (stepQF s op) ops

/-- C6 fails on the code: play item 0, stop it mid-playback, enqueue items 1
and 2 (1 starts playing); when the stale completion signal for the stopped
item 0 then arrives, the unguarded `playNext` closure pops item 2 and begins
its playback, so the stale signal did begin playback of a queued item — and
items 1 and 2 are audibly playing at the same time. -/
theorem stale_completion_resumes_playback :
    (runQF initQ [QOpF.add 0, QOpF.stop, QOpF.add 1, QOpF.add 2]).started = [0, 1] ∧
    (runQF initQ [QOpF.add 0, QOpF.stop, QOpF.add 1, QOpF.add 2, QOpF.complete 0]).started
      = [0, 1, 2] ∧
    (runQF initQ [QOpF.add 0, QOpF.stop, QOpF.add 1, QOpF.add 2, QOpF.complete 0]).live
      = [1, 2] := by
  decide

/-- Kinds of resources tracked by `ResourceCleanup`
(src/unnamed/part_000, utils/resourceCleanup.ts). -/
inductive RKind where
  | animationFrame
  | audioNode
  | mediaStream
  | audioContext
deriving DecidableEq

/-- Position of a kind in the fixed release order of `cleanupAll`. -/
def kindRank : RKind → ℕ
  | RKind.animationFrame => 0
  | RKind.audioNode => 1
  | RKind.mediaStream => 2
  | RKind.audioContext => 3

/-- The four static identity sets of `ResourceCleanup` (src/unnamed/part_000
lines 6-9), modelled as duplicate-free lists in insertion order (the
iteration order of a JS Set); resources carry numeric ids. -/
structure Registry where
  activeAnimationFrames : List ℕ
  activeAudioNodes : List ℕ
  activeMediaStreams : List ℕ
  activeAudioContexts : List ℕ
deriving DecidableEq

/-- `ResourceCleanup.trackMediaStream` (lines 18-21): JS `Set.add`, a no-op
on an already-present element. -/
def trackMediaStream (r : Registry) (x : ℕ) : Registry :=
  if x ∈ r.activeMediaStreams then r
  else { r with activeMediaStreams := r.activeMediaStreams ++ [x] }

/-- `ResourceCleanup.cleanupMediaStream` (lines 51-66): stops the tracks of
the stream and deletes it from the set. JS `Set.delete` on an absent element
is a no-op, and the whole body is wrapped in try/catch, so the operation is
total and never raises. -/
def cleanupMediaStream (r : Registry) (x : ℕ) : Registry :=
  { r with activeMediaStreams := r.activeMediaStreams.erase x }

/-- Snapshot returned by `ResourceCleanup.getResourceStats` (lines 135-147). -/
structure Stats where
  audioContexts : ℕ
  mediaStreams : ℕ
  animationFrames : ℕ
  audioNodes : ℕ
deriving DecidableEq

/-- `ResourceCleanup.getResourceStats`: the sizes of the four sets. -/
def getResourceStats (r : Registry) : Stats :=
  { audioContexts := r.activeAudioContexts.length
    mediaStreams := r.activeMediaStreams.length
    animationFrames := r.activeAnimationFrames.length
    audioNodes := r.activeAudioNodes.length }

/-- The release trace of `ResourceCleanup.cleanupAll` (lines 109-132): each
tracked resource tagged with its kind, in the order the method releases them
— animation frames first, then audio nodes, then media streams, and audio
contexts last. (The speech-synthesis cancel between streams and contexts
touches no tracked resource.) -/
def cleanupAll (r : Registry) : List (RKind × ℕ) :=
  r.activeAnimationFrames.map (fun i => (RKind.animationFrame, i))
    ++ r.activeAudioNodes.map (fun i => (RKind.audioNode, i))
    ++ r.activeMediaStreams.map (fun i => (RKind.mediaStream, i))
    ++ r.activeAudioContexts.map (fun i => (RKind.audioContext, i))

theorem pairwise_of_total {α : Type} (l : List α) (R : α → α → Prop)
    (h : ∀ a b, R a b) : l.Pairwise R := by
  induction l with
  | nil => exact List.Pairwise.nil
  | cons a t ih => exact List.Pairwise.cons (fun b _ => h a b) ih

theorem cleanupAll_pairwise (r : Registry) :
    (cleanupAll r).Pairwise (fun p q => kindRank p.1 ≤ kindRank q.1) := by
  have hrank : ∀ (l : List ℕ) (k : RKind) (p : RKind × ℕ),
      p ∈ l.map (fun i => (k, i)) → p.1 = k := by
    intro l k p hp
    obtain ⟨i, _, hi⟩ := List.mem_map.mp hp
    rw [← hi]
  have hblock : ∀ (l : List ℕ) (k : RKind),
      (l.map (fun i => (k, i))).Pairwise (fun p q => kindRank p.1 ≤ kindRank q.1) := by
    intro l k
    rw [List.pairwise_map]
    exact pairwise_of_total l _ (fun a b => le_refl _)
  unfold cleanupAll
  rw [List.pairwise_append]
  refine ⟨?_, hblock _ _, ?_⟩
  · rw [List.pairwise_append]
    refine ⟨?_, hblock _ _, ?_⟩
    · rw [List.pairwise_append]
      refine ⟨hblock _ _, hblock _ _, ?_⟩
      intro a ha b hb
      rw [hrank _ _ _ ha, hrank _ _ _ hb]
      simp [kindRank]
    · intro a ha b hb
      rcases List.mem_append.mp ha with ha1 | ha1 <;>
        rw [hrank _ _ _ ha1, hrank _ _ _ hb] <;> simp [kindRank]
  · intro a ha b hb
    rcases List.mem_append.mp ha with ha1 | ha1
    · rcases List.mem_append.mp ha1 with ha2 | ha2 <;>
        rw [hrank _ _ _ ha2, hrank _ _ _ hb] <;> simp [kindRank]
    · rw [hrank _ _ _ ha1, hrank _ _ _ hb]
      simp [kindRank]

/-- C8: `cleanupAll` releases strictly by kind priority: whenever the kind
rank (animation frame 0, audio node 1, media stream 2, audio context 3) of
the resource released at position i is smaller than the rank at position j,
then i comes strictly earlier. Hence every animation frame is released
before any audio node, every node before any media stream, and the audio
contexts come last, after everything else. -/
theorem cleanupAll_kind_order (r : Registry) (i j : Fin (cleanupAll r).length)
    (h : kindRank ((cleanupAll r).get i).1 < kindRank ((cleanupAll r).get j).1) :
    (i : ℕ) < (j : ℕ) := by
  by_contra hij
  push_neg at hij
  rcases Nat.lt_or_eq_of_le hij with hlt | heq
  · have hp := List.pairwise_iff_get.mp (cleanupAll_pairwise r) j i (Fin.lt_def.mpr hlt)
    exact absurd (lt_of_lt_of_le h hp) (lt_irrefl _)
  · have : i = j := Fin.ext heq.symm
    rw [this] at h
    exact absurd h (lt_irrefl _)

theorem cleanupAll_kind_order_witness :
    kindRank ((cleanupAll (Registry.mk [10] [20] [30] [40])).get ⟨0, by decide⟩).1
        < kindRank ((cleanupAll (Registry.mk [10] [20] [30] [40])).get ⟨1, by decide⟩).1 ∧
    (0 : ℕ) < (1 : ℕ) :=
  ⟨by decide,
   cleanupAll_kind_order (Registry.mk [10] [20] [30] [40])
     ⟨0, by decide⟩ ⟨1, by decide⟩ (by decide)⟩

/-- C9: releasing the same media stream twice, or a stream that was never
tracked, is harmless — the release operation is a total function (the source
body is wrapped in try/catch and `Set.delete` never throws), the second or
untracked release changes nothing — and the `stats()` counts stay correct:
the media-stream count (the number of currently tracked streams, a natural
number, so never negative) is decremented exactly once when the stream was
tracked and is unchanged otherwise, and the other kind counts are untouched. -/
theorem release_idempotent_stats (r : Registry) (x : ℕ)
    (hnd : r.activeMediaStreams.Nodup) :
    cleanupMediaStream (cleanupMediaStream r x) x = cleanupMediaStream r x ∧
    (x ∉ r.activeMediaStreams → cleanupMediaStream r x = r) ∧
    (getResourceStats (cleanupMediaStream r x)).mediaStreams
      = (if x ∈ r.activeMediaStreams then r.activeMediaStreams.length - 1
         else r.activeMediaStreams.length) ∧
    (getResourceStats (cleanupMediaStream (cleanupMediaStream r x) x)).mediaStreams
      = (getResourceStats (cleanupMediaStream r x)).mediaStreams ∧
    (getResourceStats (cleanupMediaStream r x)).animationFrames
      = (getResourceStats r).animationFrames ∧
    (getResourceStats (cleanupMediaStream r x)).audioNodes
      = (getResourceStats r).audioNodes ∧
    (getResourceStats (cleanupMediaStream r x)).audioContexts
      = (getResourceStats r).audioContexts := by
  have hdouble : (r.activeMediaStreams.erase x).erase x = r.activeMediaStreams.erase x := by
    apply List.erase_of_not_mem
    intro hmem
    exact absurd ((List.Nodup.mem_erase_iff hnd).mp hmem).1 (by simp)
  refine ⟨?_, ?_, ?_, ?_, rfl, rfl, rfl⟩
  · simp only [cleanupMediaStream, hdouble]
  · intro hx
    simp only [cleanupMediaStream, List.erase_of_not_mem hx]
  · by_cases hx : x ∈ r.activeMediaStreams
    · simp only [cleanupMediaStream, getResourceStats, if_pos hx,
        List.length_erase_of_mem hx]
    · simp only [cleanupMediaStream, getResourceStats, if_neg hx,
        List.erase_of_not_mem hx]
  · simp only [cleanupMediaStream, getResourceStats, hdouble]

theorem release_idempotent_stats_witness :
    ([30, 31] : List ℕ).Nodup ∧
    (getResourceStats
      (cleanupMediaStream (Registry.mk [10] [20] [30, 31] [40]) 5)).mediaStreams = 2 := by
  have h := release_idempotent_stats (Registry.mk [10] [20] [30, 31] [40]) 5 (by decide)
  refine ⟨by decide, ?_⟩
  rw [h.2.2.1]
  decide

end VoiceWebapp
